import Mathlib

/-!
Verification of the sightseeing-log document pipeline.

This file gives a shallow embedding of the repository's two source files:

* `src/generateHtml.js` — the pure document-assembly function
  `generateHtmlFromJson(json, base64Image)` together with its internal
  helpers (field resolver `get`, date formatting, member roster, budget
  aggregation, itinerary grouping and sorting, and the final HTML
  template), modelled over an inductive type `JsVal` of JSON-like
  JavaScript values.  Property access on `null`/`undefined` raises a
  `TypeError`, which the embedding models with `Except`.
* `src/index.js` — the request orchestration: the cover-image timeout
  race (`generateCoverImageWithTimeout`), the `POST /` handler, and the
  PDF admission gate `withPdfSlot` (modelled as a small-step transition
  system over the cooperative single-threaded scheduler).

Host primitives that the JavaScript runtime supplies (date parsing via
`new Date`, numeric coercion via `Number`) are abstracted into a `Host`
structure; a concrete executable instance `isoHost` implementing the
ISO `YYYY-MM-DD` date format is provided for evaluating the model on
concrete inputs.  Property lookup on the JSON data uses own-property
lookup (exact for `JSON.parse` values under the fixed keys the pipeline
resolves); the one lookup with a data-derived key — `roleMap[key]` — is
modelled with the `Object.prototype` chain included.
-/

namespace SightLog

/-! ## String helpers (kernel-reducible, character-list based) -/

/-- Whitespace characters recognised by `String.prototype.trim` (the
common subset: space, tab, newline, carriage return, form feed,
vertical tab, no-break space, ideographic space). -/
def jsWhitespace (c : Char) : Bool :=
  c = ' ' ∨ c = '\t' ∨ c = '\n' ∨ c = '\r' ∨
  c = (Char.ofNat 12) ∨ c = (Char.ofNat 11) ∨
  c = (Char.ofNat 160) ∨ c = (Char.ofNat 12288)

/-- Model of `String.prototype.trim`. -/
def jsTrim (s : String) : String :=
  ⟨((s.data.dropWhile jsWhitespace).reverse.dropWhile jsWhitespace).reverse⟩

/-- Model of `key.replace(/!$/, '')`: strip one trailing `!`. -/
def stripMarker (s : String) : String :=
  match s.data.getLast? with
  | some c => if c = '!' then ⟨s.data.dropLast⟩ else s
  | none => s

/-- Model of `s.replaceAll('/', '')` as used on `YYYY/MM/DD` keys. -/
def removeSlashes (s : String) : String :=
  ⟨s.data.filter (fun c => c ≠ '/')⟩

def digitVal (c : Char) : Option Nat :=
  if '0' ≤ c ∧ c ≤ '9' then some (c.toNat - '0'.toNat) else none

def digitsToNat : List Char → Option Nat
  | [] => none
  | cs => cs.foldl (fun acc c => match acc, digitVal c with
      | some n, some d => some (n * 10 + d)
      | _, _ => none) (some 0)

/-- Numeric value of a digit string, possibly with a leading minus sign
(model of `Number` on the slash-stripped day keys; the keys produced by
the pipeline are decimal digit strings). -/
def strToInt (s : String) : Option Int :=
  match s.data with
  | '-' :: rest => (digitsToNat rest).map (fun n => -(n : Int))
  | cs => (digitsToNat cs).map (fun n => (n : Int))

/-! ## JavaScript values -/

/-- JSON-like JavaScript runtime values (the value space reachable from
`JSON.parse` plus `undefined`).  Numbers are modelled exactly by `JsNum`
below. -/
inductive JsVal where
  | null : JsVal
  | undefined : JsVal
  | bool : Bool → JsVal
  | num : Int → JsVal
  | str : String → JsVal
  | arr : List JsVal → JsVal
  | obj : List (String × JsVal) → JsVal

/-- JavaScript numbers for the budget arithmetic: NaN, the infinities,
and exact integers (non-integral floats and their rounding are outside the model). -/
inductive JsNum where
  | nan : JsNum
  | posInf : JsNum
  | negInf : JsNum
  | int : Int → JsNum
  deriving DecidableEq

def JsVal.isNullish : JsVal → Bool
  | .null => true
  | .undefined => true
  | _ => false

/-- JavaScript truthiness of a value (`num` holds integers in the model,
so the falsy numbers are exactly `0`). -/
def truthy : JsVal → Bool
  | .null => false
  | .undefined => false
  | .bool b => b
  | .num n => n ≠ 0
  | .str s => s ≠ ""
  | .arr _ => true
  | .obj _ => true

mutual

/-- Model of `String(v)`: an array stringifies as its elements joined
by commas, where a nested element is stringified recursively and
`null`/`undefined` elements render empty (`Array.prototype.join`); a
plain object stringifies as `[object Object]`. -/
def jsToString : JsVal → String
  | .null => "null"
  | .undefined => "undefined"
  | .bool b => if b then "true" else "false"
  | .num n => toString n
  | .str s => s
  | .arr l => String.intercalate "," (jsToStringList l)
  | .obj _ => "[object Object]"

/-- The element strings of `Array.prototype.join`: nullish elements
render empty, the rest via `String`. -/
def jsToStringList : List JsVal → List String
  | [] => []
  | .null :: rest => "" :: jsToStringList rest
  | .undefined :: rest => "" :: jsToStringList rest
  | v :: rest => jsToString v :: jsToStringList rest

end

/-- `Array.prototype.join(sep)`: `null`/`undefined` elements render
empty, others via `String`. -/
def jsJoin (sep : String) (l : List JsVal) : String :=
  String.intercalate sep (l.map (fun v => if v.isNullish then "" else jsToString v))

inductive JsErr where
  | typeError : JsErr
  | generic : JsErr
  deriving DecidableEq

/-- Own-property lookup on an object's field list; absence yields
`undefined` as in JavaScript. -/
def lookupOwn : List (String × JsVal) → String → JsVal
  | [], _ => .undefined
  | (k, v) :: rest, key => if k = key then v else lookupOwn rest key

/-- Model of the property access `obj[key]`: a `TypeError` on
`null`/`undefined`, own-property lookup on objects, `undefined` on the
remaining primitives and arrays (for the non-index keys the pipeline
uses). -/
def propAccess : JsVal → String → Except JsErr JsVal
  | .null, _ => .error .typeError
  | .undefined, _ => .error .typeError
  | .obj fields, key => .ok (lookupOwn fields key)
  | _, _ => .ok .undefined

/-- The field resolver of `generateHtml.js`:
`(obj, key) => obj[key] ?? obj[key + '!'] ?? obj[key.replace(/!$/, '')]`
(the `??` operator falls through on `null` and `undefined`). -/
def get (obj : JsVal) (key : String) : Except JsErr JsVal := do
  let a ← propAccess obj key
  if ¬ a.isNullish then return a
  let b ← propAccess obj (key ++ "!")
  if ¬ b.isNullish then return b
  propAccess obj (stripMarker key)

/-- Total variant of `get` for receivers already known non-nullish
(used where the source has established the receiver is truthy). -/
def getD (obj : JsVal) (key : String) : JsVal :=
  match get obj key with
  | .ok v => v
  | .error _ => .undefined

/-- Exception-propagating map, modelling `Array.prototype.map` with a
callback that may throw: elements are processed in order and the first
raise aborts the whole map. -/
def mapExcept {α β : Type} (f : α → Except JsErr β) : List α → Except JsErr (List β)
  | [] => .ok []
  | a :: rest => do
    let b ← f a
    let bs ← mapExcept f rest
    return b :: bs

/-! ## JavaScript number operations -/

def JsNum.truthy : JsNum → Bool
  | .nan => false
  | .int q => q ≠ 0
  | _ => true

/-- `x || 0` on a number. -/
def numOr0 (n : JsNum) : JsNum := if n.truthy then n else .int 0

/-- JavaScript `+` on numbers. -/
def jsAdd : JsNum → JsNum → JsNum
  | .nan, _ => .nan
  | _, .nan => .nan
  | .posInf, .negInf => .nan
  | .negInf, .posInf => .nan
  | .posInf, _ => .posInf
  | _, .posInf => .posInf
  | .negInf, _ => .negInf
  | _, .negInf => .negInf
  | .int a, .int b => .int (a + b)

/-- Display of a number (`${total}`). -/
def jsNumToString : JsNum → String
  | .nan => "NaN"
  | .posInf => "Infinity"
  | .negInf => "-Infinity"
  | .int q => toString q

/-! ## Host primitives -/

/-- Host primitives supplied by the JavaScript runtime: `new Date(v)`
(yielding an epoch-millisecond timestamp or `none` for an invalid
date) and `Number(v)`. -/
structure Host where
  parseDateVal : JsVal → Option Int
  toNumber : JsVal → JsNum

/-! ## Civil-calendar arithmetic (model of the Intl formatters)

`Intl.DateTimeFormat` with time zone `Asia/Tokyo` is modelled by
shifting the epoch timestamp by +9 hours (the modern JST offset) and
converting to a proleptic Gregorian civil date with the standard
days-from-civil algorithm. -/

def msPerDay : Int := 86400000
def jstOffsetMs : Int := 32400000

/-- Gregorian civil date (year, month, day) of a day count from the
epoch 1970-01-01. -/
def civilFromDays (z0 : Int) : Int × Int × Int :=
  let z := z0 + 719468
  let era := Int.ediv z 146097
  let doe := z - era * 146097
  let yoe := Int.ediv (doe - Int.ediv doe 1460 + Int.ediv doe 36524 - Int.ediv doe 146096) 365
  let y := yoe + era * 400
  let doy := doe - (365 * yoe + Int.ediv yoe 4 - Int.ediv yoe 100)
  let mp := Int.ediv (5 * doy + 2) 153
  let d := doy - Int.ediv (153 * mp + 2) 5 + 1
  let m := mp + (if mp < 10 then 3 else -9)
  (y + (if m ≤ 2 then 1 else 0), m, d)

/-- Day count from the epoch of a Gregorian civil date. -/
def daysFromCivil (y0 m d : Int) : Int :=
  let y := y0 - (if m ≤ 2 then 1 else 0)
  let era := Int.ediv y 400
  let yoe := y - era * 400
  let doy := Int.ediv (153 * (m + (if m > 2 then -3 else 9)) + 2) 5 + d - 1
  let doe := yoe * 365 + Int.ediv yoe 4 - Int.ediv yoe 100 + doy
  era * 146097 + doe - 719468

/-- JST civil date of an epoch-millisecond timestamp. -/
def jstCivil (ts : Int) : Int × Int × Int :=
  civilFromDays (Int.ediv (ts + jstOffsetMs) msPerDay)

/-- Day of week, 0 = Sunday (1970-01-01 was a Thursday). -/
def jstWeekdayNum (ts : Int) : Int :=
  Int.emod (Int.ediv (ts + jstOffsetMs) msPerDay + 4) 7

/-- Short Japanese weekday names as produced with `weekday: 'short'`. -/
def weekdayJa (w : Int) : String :=
  if w = 0 then "日" else if w = 1 then "月" else if w = 2 then "火"
  else if w = 3 then "水" else if w = 4 then "木" else if w = 5 then "金"
  else "土"

/-- Zero-padded two-digit rendering (`'2-digit'` fields). -/
def pad2 (n : Int) : String :=
  if 0 ≤ n ∧ n < 10 then "0" ++ toString n else toString n

/-- The parts record assembled from
`Intl.DateTimeFormat('ja-JP-u-ca-japanese', …).formatToParts`. -/
structure JpParts where
  era : String
  year : String
  month : String
  day : String
  weekday : String

/-- Japanese era and era year of a Gregorian civil date.  The modern
eras (明治 through 令和) are modelled; for dates before the Meiji era
the model falls back to the Gregorian ("西暦") era with the Gregorian
year, a deviation from ICU's full historical-era table. -/
def jpEra (y m d : Int) : String × Int :=
  if y > 2019 ∨ (y = 2019 ∧ (m > 5 ∨ (m = 5 ∧ d ≥ 1))) then ("令和", y - 2018)
  else if y > 1989 ∨ (y = 1989 ∧ (m > 1 ∨ (m = 1 ∧ d ≥ 8))) then ("平成", y - 1988)
  else if y > 1926 ∨ (y = 1926 ∧ m = 12 ∧ d ≥ 25) then ("昭和", y - 1925)
  else if y > 1912 ∨ (y = 1912 ∧ (m > 7 ∨ (m = 7 ∧ d ≥ 30))) then ("大正", y - 1911)
  else if y > 1868 ∨ (y = 1868 ∧ (m > 10 ∨ (m = 10 ∧ d ≥ 23))) then ("明治", y - 1867)
  else ("西暦", y)

/-- Model of `getJpCalParts`: era/year/month/day/weekday of a timestamp
in the Japanese imperial calendar, evaluated in Asia/Tokyo.  The first
year of an era renders as `元` as ICU does. -/
def getJpCalParts (ts : Int) : JpParts :=
  let c := jstCivil ts
  let e := jpEra c.1 c.2.1 c.2.2
  { era := e.1
    year := if e.2 = 1 then "元" else toString e.2
    month := toString c.2.1
    day := toString c.2.2
    weekday := weekdayJa (jstWeekdayNum ts) }

/-- Model of `toValidDate`: falsy raw values yield no date, otherwise
the host's `new Date` parse (invalid dates yield `none`). -/
def toValidDate (host : Host) (v : JsVal) : Option Int :=
  if ¬ truthy v then none else host.parseDateVal v

/-- Model of `formatRange` from `generateHtml.js`. -/
def formatRange (host : Host) (startRaw endRaw : JsVal) : String :=
  match toValidDate host startRaw, toValidDate host endRaw with
  | none, none => ""
  | some sd, some ed =>
    let sp := getJpCalParts sd
    let ep := getJpCalParts ed
    let startStr := sp.era ++ sp.year ++ "年" ++ sp.month ++ "月" ++ sp.day ++ "日(" ++ sp.weekday ++ ")"
    let endStr := if sp.month = ep.month
      then ep.day ++ "日(" ++ ep.weekday ++ ")"
      else ep.month ++ "月" ++ ep.day ++ "日(" ++ ep.weekday ++ ")"
    startStr ++ "〜" ++ endStr
  | some d, none =>
    let p := getJpCalParts d
    p.era ++ p.year ++ "年" ++ p.month ++ "月" ++ p.day ++ "日(" ++ p.weekday ++ ")"
  | none, some d =>
    let p := getJpCalParts d
    p.era ++ p.year ++ "年" ++ p.month ++ "月" ++ p.day ++ "日(" ++ p.weekday ++ ")"

/-- Model of the itinerary date formatter
(`ja-JP`, `year numeric / month 2-digit / day 2-digit`, Asia/Tokyo),
assembled as `${year}/${month}/${day}`. -/
def formatYmdJst (ts : Int) : String :=
  let c := jstCivil ts
  toString c.1 ++ "/" ++ pad2 c.2.1 ++ "/" ++ pad2 c.2.2

/-- Model of the itinerary time formatter (24-hour `HH:MM`, Asia/Tokyo). -/
def formatHmJst (ts : Int) : String :=
  let msOfDay := Int.emod (ts + jstOffsetMs) msPerDay
  pad2 (Int.ediv msOfDay 3600000) ++ ":" ++ pad2 (Int.emod (Int.ediv msOfDay 60000) 60)

/-! ## Member roster (`generateHtml.js` lines 70–105) -/

def roleMap : List (String × String) :=
  [("leader", "班長"), ("camera", "カメラ係"), ("accountant", "お財布係"),
   ("navigator", "案内係"), ("driver", "運転係"), ("reservation", "予約係")]

/-- Member names every plain object literal inherits from
`Object.prototype`; looking any of them up on `roleMap` yields a truthy
inherited member (a native function, or the prototype object for the
`__proto__` accessor) rather than `undefined`. -/
def objectProtoMembers : List String :=
  ["constructor", "hasOwnProperty", "isPrototypeOf", "propertyIsEnumerable",
   "toLocaleString", "toString", "valueOf", "__proto__",
   "__defineGetter__", "__defineSetter__", "__lookupGetter__", "__lookupSetter__"]

/-- The template-literal rendering of an inherited `Object.prototype`
member on Node 22 (V8, per the repository Dockerfile): the `__proto__`
accessor yields the prototype object itself, `constructor` is the
`Object` function (whose name is `Object`), and the rest are native
functions stringified from their own names. -/
def protoMemberDisplay : String → String
  | "__proto__" => "[object Object]"
  | "constructor" => "function Object() \x7b [native code] \x7d"
  | k => "function " ++ k ++ "() \x7b [native code] \x7d"

/-- The JavaScript property lookup `roleMap[key]` on the plain object
literal `roleMap` with a data-derived key: an own entry if present,
else the inherited `Object.prototype` member (rendered as it
interpolates into the row template), else `undefined` (`none`). -/
def roleJsLookup (key : String) : Option String :=
  match roleMap.lookup key with
  | some v => some v
  | none =>
    if key ∈ objectProtoMembers then some (protoMemberDisplay key) else none

structure Member where
  name : JsVal
  episode : JsVal
  rawRole : JsVal

/-- One pass of the `membersArr.map` callback: resolve the name, return
`null` for entries whose name is falsy, else keep episode and raw role. -/
def processMember (m : JsVal) : Except JsErr (Option Member) := do
  let name ← get m "name"
  if ¬ truthy name then return none
  let episode ← get m "episode"
  let rawRole ← get m "role"
  return some (Member.mk name episode rawRole)

/-- The `membersArr.map(...).filter(Boolean)` pass. -/
def processedOf (l : List JsVal) : Except JsErr (List Member) :=
  (mapExcept processMember l).map (List.filterMap id)

/-- `processed.some(p => v != null && String(v).trim() !== '')`. -/
def anyProvidedRole (ps : List Member) : Bool :=
  ps.any (fun p => ¬ p.rawRole.isNullish ∧ jsTrim (jsToString p.rawRole) ≠ "")

/-- `String(p.rawRole || '').trim()`. -/
def roleKey (p : Member) : String :=
  jsTrim (jsToString (if truthy p.rawRole then p.rawRole else .str ""))

/-- The displayed role of the member at position `idx`
(`roleMap[key] || '班員'`: every found value — an own label or an
inherited prototype member — is truthy, so the fallback fires exactly
when the lookup is `undefined`). -/
def roleLabel (anyProvided : Bool) (idx : Nat) (p : Member) : String :=
  if anyProvided then
    let key := roleKey p
    if key ≠ "" then
      match roleJsLookup key with
      | some jp => jp
      | none => "班員"
    else "班員"
  else if idx = 0 then "班長" else "班員"

/-- The role labels assigned to a processed roster, in order. -/
def labelsOf (ps : List Member) : List String :=
  ps.mapIdx (fun i p => roleLabel (anyProvidedRole ps) i p)

def memberRow (p : Member) (roleJp : String) : String :=
  "<tr><td>" ++ jsToString p.name ++ "</td><td>" ++ roleJp ++ "</td><td>" ++
    (if truthy p.episode then jsToString p.episode else "") ++ "</td></tr>"

/-- Model of the whole `membersRows` computation (empty when the
resolved `members` field is not an array). -/
def membersRowsOf (v : JsVal) : Except JsErr String :=
  match v with
  | .arr l => do
    let ps ← processedOf l
    return String.join (ps.mapIdx (fun i p => memberRow p (roleLabel (anyProvidedRole ps) i p)))
  | _ => pure ""

/-! ## Budget aggregation (`generateHtml.js` lines 107–131) -/

/-- One rendered detail line; malformed lines (falsy name or nullish
amount) render as the empty string, matching the source. -/
def detailLine (d : JsVal) : Except JsErr String := do
  let dname ← get d "name"
  let damount ← get d "amount"
  if ¬ truthy dname ∨ damount.isNullish then return ""
  return jsToString dname ++ "…… " ++ jsToString damount ++ "円"

/-- One pass of the `allowanceArr.map` callback, returning the rendered
row (empty for a dropped category) and the category's contribution to
the running total (`none` for a dropped category).  As in the source,
detail lines are resolved before the title/total check. -/
def renderCategory (host : Host) (a : JsVal) : Except JsErr (String × Option JsNum) := do
  let title ← get a "title"
  let totalVal ← get a "total"
  let detailsArr ← get a "details"
  let rawLines ← mapExcept detailLine (match detailsArr with
    | .arr ds => ds
    | _ => [])
  let details := String.intercalate "<br>" (rawLines.filter (fun s => s ≠ ""))
  if ¬ truthy title ∨ totalVal.isNullish then return ("", none)
  return ("<tr><td>" ++ jsToString title ++ "</td><td>" ++ details ++
    "</td><td class=\"money\">" ++ jsToString totalVal ++ "円</td></tr>",
    some (numOr0 (host.toNumber totalVal)))

/-- `allowanceArr.map(...)` over the whole allowance array. -/
def budgetCatsOf (host : Host) (l : List JsVal) : Except JsErr (List (String × Option JsNum)) :=
  mapExcept (renderCategory host) l

/-- Model of the `budgetRows` / `total` computation: rows are the
non-empty rendered rows joined, the total is `Number(total) || 0`
accumulated in array order over the retained categories. -/
def budgetOf (host : Host) (v : JsVal) : Except JsErr (String × JsNum) :=
  match v with
  | .arr l => do
    let cats ← budgetCatsOf host l
    return (String.join ((cats.map Prod.fst).filter (fun s => s ≠ "")),
      (cats.filterMap Prod.snd).foldl jsAdd (.int 0))
  | _ => pure ("", .int 0)

/-! ## Itinerary events (`generateHtml.js` lines 133–227) -/

structure ItinEvent where
  clientId : JsVal
  placeName : JsVal
  ymd : Option String
  hm : String
  ts : Option Int
  uploadIndex : Nat

/-- One iteration of the events loop for the record at upload index
`i`.  The receiver is guarded by `imagesMeta[i] || {}`, so the field
resolver cannot raise here and the total `getD` is exact. -/
def mkEvent (host : Host) (i : Nat) (mRaw : JsVal) : Option ItinEvent :=
  let m := if truthy mRaw then mRaw else .obj []
  let clientId := getD m "clientId"
  let rawPlaceName := getD m "placeName"
  let placeName := if truthy rawPlaceName then rawPlaceName else .str "（場所不明）"
  let dt : Option Int := match getD m "dateTime" with
    | .str s => host.parseDateVal (.str s)
    | _ => none
  let hasTime := dt.isSome
  let hasPlace : Bool := match rawPlaceName with
    | .str s => decide (jsTrim s ≠ "")
    | _ => false
  let hm := match dt with
    | some t => formatHmJst t
    | none => "—"
  if ¬ hasTime ∧ ¬ hasPlace then none
  else some (ItinEvent.mk clientId placeName (dt.map formatYmdJst) hm dt i)

/-- `Array.isArray(json?.images) ? json.images : []` (plain member
access, no alias resolution, optional chaining absorbs nullish). -/
def imagesOf : JsVal → List JsVal
  | .obj fields =>
    match lookupOwn fields "images" with
    | .arr l => l
    | _ => []
  | _ => []

/-- The surviving events with their upload indices. -/
def eventsOf (host : Host) (metas : List JsVal) : List ItinEvent :=
  metas.enum.filterMap (fun p => mkEvent host p.1 p.2)

/-- `ev.ymd || '日付不明'`. -/
def keyOf (ev : ItinEvent) : String :=
  match ev.ymd with
  | some s => if s ≠ "" then s else "日付不明"
  | none => "日付不明"

/-- Insertion-ordered grouping, modelling the `Map` of the source. -/
def insertEvent : List (String × List ItinEvent) → String → ItinEvent →
    List (String × List ItinEvent)
  | [], k, ev => [(k, [ev])]
  | (k0, l) :: rest, k, ev =>
    if k0 = k then (k0, l ++ [ev]) :: rest
    else (k0, l) :: insertEvent rest k ev

def groupsOf (evs : List ItinEvent) : List (String × List ItinEvent) :=
  evs.foldl (fun gs ev => insertEvent gs (keyOf ev) ev) []

/-- `Number(a.replaceAll('/', ''))` on a day key.  (The keys produced
by the pipeline are digit strings, for which `strToInt` is the exact
`Number`; the `getD` default is never reached on them.) -/
def numOfKey (s : String) : Int :=
  (strToInt (removeSlashes s)).getD 0

/-- The day-key comparator of the source: the unknown bucket sorts
after everything, other keys compare by the numeric value of the
slash-stripped date string. -/
def keyCmp (a b : String) : Int :=
  if a = "日付不明" then 1
  else if b = "日付不明" then -1
  else numOfKey a - numOfKey b

/-- The ordering relation realised by `keys.sort(cmp)` (reflexivity is
added to make the relation total; the key list is duplicate-free, so
this does not change the sort). -/
def keyLe (a b : String) : Prop := keyCmp a b ≤ 0 ∨ a = b

instance : DecidableRel keyLe := fun a b => by
  unfold keyLe; infer_instance

/-- Sort timestamp with `null` mapped to positive infinity
(`x.ts ?? Infinity`). -/
def tsT (ev : ItinEvent) : WithTop Int :=
  match ev.ts with
  | some t => (t : WithTop Int)
  | none => ⊤

/-- The in-group ordering realised by the source comparator
`(x.ts ?? Infinity) - (y.ts ?? Infinity)` with upload-index tiebreak. -/
def evLe (x y : ItinEvent) : Prop :=
  tsT x < tsT y ∨ (tsT x = tsT y ∧ x.uploadIndex ≤ y.uploadIndex)

instance : DecidableRel evLe := fun x y => by
  unfold evLe; infer_instance

/-- The rendered day groups in final order: keys sorted by the source
comparator, each group sorted by timestamp then upload index. -/
def sortedGroupsOf (evs : List ItinEvent) : List (String × List ItinEvent) :=
  let gs := groupsOf evs
  (List.insertionSort keyLe (gs.map Prod.fst)).map
    (fun k => (k, List.insertionSort evLe ((gs.lookup k).getD [])))

def eventLi (ev : ItinEvent) : String :=
  "<li><span class=\"time\">" ++ ev.hm ++ "</span><span class=\"dot\">……</span><span class=\"place\">" ++
    jsToString ev.placeName ++ "</span></li>"

def groupBlock (k : String) (list : List ItinEvent) : String :=
  "\n    <h3 class=\"sticker\">" ++ k ++ "</h3>\n    <ul>\n      " ++
    String.intercalate "\n      " (list.map eventLi) ++ "\n    </ul>"

/-- Model of the `itineraryHtml` assembly. -/
def itineraryHtmlOf (sg : List (String × List ItinEvent)) : String :=
  if sg.length ≠ 0 then
    let inner := String.join (sg.map (fun p =>
      if p.2.length = 0 then "" else groupBlock p.1 p.2))
    if jsTrim inner ≠ "" then
      "\n      <section class=\"section sheet\">\n        <h2>行程</h2>\n        <div class=\"itinerary\">" ++
        inner ++ "\n        </div>\n      </section>"
    else ""
  else ""

/-! ## The HTML template (`generateHtml.js` lines 229–466)

The constant segments below are the literal text of the returned
template (braces escaped); the interpolation points are reassembled in
`renderDocument`. -/

/-- Constant segment of the HTML template. -/
def tplHead : String :=
  "\n<!DOCTYPE html>\n<html lang=\"ja\">\n<head>\n  <meta charset=\"utf-8\" />\n  <title>修学旅行のしおり</title>\n  <meta name=\"viewport\" content=\"width=device-width, initial-scale=1\" />\n  <style>\n    /* ======== 基本設定 ======== */\n    :root\x7b\n      --ink:#000;\n      --warn:#dc5a3a;             /* 強調色（注意・警戒） */\n      --accent:#2e7d32;           /* 見出し・罫線のアクセント（深緑） */\n    \x7d\n    body\x7b\n      margin:0; color:var(--ink);\n      background:#fff;\n      font-family:\n        \"Hiragino Maru Gothic ProN\",\n        \"BIZ UDGothic\",\n        \"Kosugi Maru\",\n        \"Yu Gothic\",\n        \"Noto Sans JP\",\n        \"Hiragino Kaku Gothic ProN\",\n        Meiryo,\n        sans-serif;\n      line-height:1.6; font-size:12pt;\n    \x7d\n\n    /* @page rule is defined below for A5 */\n    @media print\x7b\n      body\x7b -webkit-print-color-adjust:exact; print-color-adjust:exact; \x7d\n      .no-print\x7b display:none !important; \x7d\n      .page-footer\x7b position:fixed; bottom:8mm; left:0; right:0; text-align:center; font-size:10pt; color:#444; \x7d\n    \x7d\n\n    h2\x7b\n      margin:1.2em 0 .8em;\n      font-size:16pt;\n      font-weight:700;\n      text-align:left;\n      border-bottom:2px solid var(--accent);\n      padding-bottom:4px;\n    \x7d\n\n    .section\x7b\n      margin:20px 0;\n      page-break-before:always;\n    \x7d\n\n    /* セクション内の余白調整（背景は body 側へ移行） */\n    .sheet\x7b padding-top:6px; \x7d\n\n    dl.kv\x7b margin:0 0 10px; \x7d\n    dl.kv dt\x7b font-weight:700; font-size:10.5pt; margin-bottom:2px; \x7d\n    dl.kv dd\x7b margin:0 0 6px 0; \x7d\n\n    .goals-container \x7b\n      display: flex;\n      justify-content: center;  /* 横中央 */\n      align-items: flex-start;  /* 上部に寄せる */\n      padding-top: 7pt;        /* 上に余白 */\n    \x7d\n\n    ul.goals \x7b\n      list-style: none;\n      padding: 0;\n      margin: 0;\n      text-align: center;\n      width: 100%;\n    \x7d\n\n    ul.goals li \x7b\n      font-size: 24pt;            /* A5で見出し級に大きく */\n      font-weight: bold;\n      margin: 12pt 0;\n      padding: 8pt 12pt;\n      background: #eaf3ec;       /* アクセントに合わせた淡緑 */\n      border-radius: 12pt;\n      box-shadow: 2pt 2pt 6pt rgba(0,0,0,0.2);\n      display: inline-block;      /* 横幅に合わせて中央寄せ */\n    \x7d\n\n    table.members\x7b width:100%; border-collapse:collapse; margin-top:8px; \x7d\n    .members th, .members td\x7b border:1px solid #000; padding:6px; font-size:11pt; text-align:left; \x7d\n    .members th\x7b background:#eaf3ec; \x7d\n\n    table.budget\x7b width:100%; border-collapse:collapse; margin-top:8px; \x7d\n    .budget th,.budget td\x7b border:1px solid #000; padding:6px; vertical-align:top; font-size:10.5pt; \x7d\n    .budget th\x7b background:#eaf3ec; text-align:left; \x7d\n    .budget .money\x7b text-align:right; \x7d\n\n    /* 付箋/テープ風見出し（小見出し用） */\n    .sticker\x7b\n      display:inline-block;\n      padding:6px 10px;\n      border-radius:8px;\n      background:#f2f7f3; /* 薄い緑がかった灰色 */\n      position:relative;\n      font-weight:700;\n      box-shadow:1px 1px 0 rgba(0,0,0,.35);\n    \x7d\n    .sticker::before\x7b\n      content:\"\";\n      position:absolute;\n      inset:-6px auto auto -6px;\n      width:36px; height:18px;\n      background:repeating-linear-gradient(45deg, rgba(0,0,0,.08) 0 6px, rgba(0,0,0,.16) 6px 12px);\n      transform:rotate(-6deg);\n      opacity:.7;\n      pointer-events:none;\n    \x7d\n\n    /* 行程の可読性向上 */\n    .itinerary ul\x7b margin:6px 0 12px; list-style:none; padding-left:0; \x7d\n    .itinerary li\x7b margin:4px 0; font-variant-numeric: tabular-nums; \x7d\n    .itinerary li .time\x7b display:inline-block; min-width:4ch; \x7d\n    .itinerary li .dot\x7b display:inline-block; margin:0 6px; opacity:.85; \x7d\n    .itinerary li .place\x7b display:inline-block; \x7d\n\n    .total-box\x7b margin-top:10px; border:2px solid var(--accent); background:#f3f8f4; padding:6px 10px; display:flex; justify-content:space-between; \x7d\n    .total-box .label\x7b color:var(--accent); font-weight:700; \x7d\n    .total-box .value\x7b font-weight:800; font-size:13pt; \x7d\n\n    .hint\x7b font-size:9pt; color:#444; margin-top:4px; \x7d\n    .warn\x7b color:var(--warn); font-weight:700; \x7d\n\n    /* ここ崩すと表紙のフィットがうまくいかなくなるので暫定で固定 */\n    @page \x7b\n      margin: 0mm 5mm;\n      size: A5 portrait;\n    \x7d\n    @media print \x7b\n      body::before, body::after \x7b\n        display: none !important;\n        content: none !important;\n      \x7d\n    \x7d\n    @page fullimage \x7b\n      margin: 0mm 0mm;\n      size: A5 portrait;\n    \x7d\n    .page \x7b\n      page: fullimage;\n      position: relative;\n      width: 100%;\n      height: 100vh; /* 1ページの高さを確保 */\n      overflow: hidden;\n    \x7d\n  </style>\n</head>\n<body>\n  <div class=\"container\">\n    <div class=\"page\">  \n    "

/-- Constant segment of the HTML template. -/
def tplAfterCover : String :=
  "\n    </div>\n    "

/-- Constant segment of the HTML template. -/
def tplAfterSchedule : String :=
  "\n    <section class=\"section sheet\">\n      "

/-- Constant segment of the HTML template. -/
def tplAfterPurpose : String :=
  "\n      "

/-- Constant segment of the HTML template. -/
def tplAfterHotels : String :=
  "\n      <h2>持ち物と注意</h2>\n      <dl class=\"kv\">\n        <dt>必ず持参</dt>\n        <dd>しおり・筆記用具・健康保険証の写し・雨具・常備薬・ハンカチ/ティッシュ</dd>\n      </dl>\n      <dl class=\"kv\">\n        <dt>あると便利</dt>\n        <dd>小さめの折りたたみバッグ・モバイルバッテリー・絆創膏</dd>\n      </dl>\n      <dl class=\"kv\">\n        <dt class=\"warn\">約束（厳守）</dt>\n        <dd>時間厳守・整理整頓・買い物は班長に相談・夜更かし禁止</dd>\n      </dl>\n    </section>\n    "

/-- Constant segment of the HTML template. -/
def tplAfterBudget : String :=
  "\n    "

/-- Constant segment of the HTML template. -/
def tplTail : String :=
  "\n    <div class=\"page-footer\" aria-hidden=\"true\"></div>\n  </div>\n</body>\n</html>\n"

def tplSchedOpen : String :=
  "\n      <section class=\"section sheet\">\n        <h2>日程</h2>\n        "

def tplSchedTextA : String :=
  "\n          <dl class=\"kv\">\n            <dd>"

def tplSchedTextB : String :=
  "</dd>\n          </dl>\n        "

def tplSchedMid : String :=
  "\n        <h2>班員名簿</h2>\n        <table class=\"members\">\n          <thead>\n            <tr>\n              <th style=\"width:30%\">氏名</th>\n              <th style=\"width:18%\">役割</th>\n              <th>エピソード</th>\n            </tr>\n          </thead>\n          <tbody>\n            "

def tplSchedClose : String :=
  "\n          </tbody>\n        </table>\n        <p class=\"hint\">※ 名札・健康カードを必ず携帯しましょう。</p>\n      </section>\n    "

def tplCoverA : String :=
  "<img src=\"data:image/png;base64,"

def tplCoverB : String :=
  "\" alt=\"Cover Image\" style=\"width: 100%;object-fit:cover;object-position: 50% 50%;\" />"

def tplPurposeA : String :=
  "\n        <h2>旅の目的</h2>\n        <div class=\"goals-container\">\n          <ul class=\"goals\">\n            <li>"

def tplPurposeB : String :=
  "</li>\n          </ul>\n        </div>\n      "

def tplHotelsA : String :=
  "\n        <h2>宿泊先</h2>\n        <dl class=\"kv\">\n          <dd>"

def tplHotelsB : String :=
  "</dd>\n        </dl>\n      "

def tplBudgetA : String :=
  "\n    <section class=\"section sheet\">\n      <h2>予算・使用金額</h2>\n      <table class=\"budget\" aria-label=\"予算内訳\">\n        <thead>\n          <tr>\n            <th style=\"width:25%\">項目</th>\n            <th>商品（明細）</th>\n            <th style=\"width:20%\">合計</th>\n          </tr>\n        </thead>\n        <tbody>\n          "

def tplBudgetB : String :=
  "\n        </tbody>\n      </table>\n      <div class=\"total-box\">\n        <div class=\"label\">合計</div>\n        <div class=\"value\">"

def tplBudgetC : String :=
  "円</div>\n      </div>\n      <p class=\"hint\">※ おこづかいはよく考えて使いましょう</p>\n    </section>\n    "

/-- `${base64Image ? `<img …>` : ''}` (an empty string is falsy). -/
def coverHtml : Option String → String
  | some b => if b ≠ "" then tplCoverA ++ b ++ tplCoverB else ""
  | none => ""

/-- The schedule + roster section, gated on
`scheduleText || membersRows`. -/
def scheduleSection (scheduleText membersRows : String) : String :=
  if scheduleText ≠ "" ∨ membersRows ≠ "" then
    tplSchedOpen ++
      (if scheduleText ≠ "" then tplSchedTextA ++ scheduleText ++ tplSchedTextB else "") ++
      tplSchedMid ++ membersRows ++ tplSchedClose
  else ""

/-- `${purpose ? … : ''}` (the purpose is a raw resolved value). -/
def purposeHtml (purpose : JsVal) : String :=
  if truthy purpose then tplPurposeA ++ jsToString purpose ++ tplPurposeB else ""

/-- `${hotels ? … : ''}` (`hotels` is `undefined` when the field is not
an array, and may be the falsy empty string for an empty array). -/
def hotelsHtml : Option String → String
  | some h => if h ≠ "" then tplHotelsA ++ h ++ tplHotelsB else ""
  | none => ""

/-- `${budgetRows ? … : ''}` with the grand total interpolated. -/
def budgetSection (budgetRows : String) (total : JsNum) : String :=
  if budgetRows ≠ "" then
    tplBudgetA ++ budgetRows ++ tplBudgetB ++ jsNumToString total ++ tplBudgetC
  else ""

/-- The full returned document. -/
def renderDocument (base64Image : Option String) (scheduleText : String)
    (hotels : Option String) (purpose : JsVal) (membersRows budgetRows : String)
    (total : JsNum) (itineraryHtml : String) : String :=
  tplHead ++ coverHtml base64Image ++ tplAfterCover ++
    scheduleSection scheduleText membersRows ++ tplAfterSchedule ++
    purposeHtml purpose ++ tplAfterPurpose ++ hotelsHtml hotels ++
    tplAfterHotels ++ budgetSection budgetRows total ++ tplAfterBudget ++
    itineraryHtml ++ tplTail

/-! ## `generateHtmlFromJson` (the whole function) -/

/-- `json && typeof json === 'object' && json.trip ? json.trip : json`.
`typeof` is `'object'` exactly for objects, arrays and `null`; the
leading `json &&` short-circuits the falsy cases. -/
def tripOf (json : JsVal) : JsVal :=
  match json with
  | .obj fields => if truthy (lookupOwn fields "trip") then lookupOwn fields "trip" else json
  | v => v

/-- The document-assembly function `generateHtmlFromJson(json,
base64Image)`.  A `TypeError` raised by a property access on a nullish
receiver propagates as `Except.error`. -/
def generateHtmlFromJson (host : Host) (json : JsVal) (base64Image : Option String) :
    Except JsErr String := do
  let trip := tripOf json
  let rawStartDate ← get trip "startDate"
  let rawEndDate ← get trip "endDate"
  let scheduleText := formatRange host rawStartDate rawEndDate
  let hotelsArr ← get trip "hotels"
  let hotels : Option String := match hotelsArr with
    | .arr l => some (jsJoin " / " l)
    | _ => none
  let purpose ← get trip "purpose"
  let membersArr ← get trip "members"
  let membersRows ← membersRowsOf membersArr
  let allowanceArr ← get trip "allowance"
  let bud ← budgetOf host allowanceArr
  let events := eventsOf host (imagesOf json)
  let itineraryHtml := itineraryHtmlOf (sortedGroupsOf events)
  return renderDocument base64Image scheduleText hotels purpose membersRows
    bud.1 bud.2 itineraryHtml

/-! ## Concrete host instance

`isoHost` implements `new Date` for the ISO `YYYY-MM-DD` date-only
format (parsed as UTC midnight, as JavaScript does) and a simple
numeric coercion; it is one admissible host used to evaluate the model
on concrete inputs. -/

def daysInMonth (y m : Nat) : Nat :=
  if m = 2 then (if y % 4 = 0 ∧ (y % 100 ≠ 0 ∨ y % 400 = 0) then 29 else 28)
  else if m = 4 ∨ m = 6 ∨ m = 9 ∨ m = 11 then 30
  else 31

/-- Parse `YYYY-MM-DD` to epoch milliseconds (UTC midnight). -/
def parseIsoDate (s : String) : Option Int :=
  match s.data.splitOn '-' with
  | [ys, ms, ds] =>
    if ys.length = 4 ∧ ms.length = 2 ∧ ds.length = 2 then
      match digitsToNat ys, digitsToNat ms, digitsToNat ds with
      | some y, some m, some d =>
        if 1 ≤ m ∧ m ≤ 12 ∧ 1 ≤ d ∧ d ≤ daysInMonth y m then
          some (daysFromCivil (y : Int) (m : Int) (d : Int) * msPerDay)
        else none
      | _, _, _ => none
    else none
  | _ => none

def isoHost : Host where
  parseDateVal v :=
    match v with
    | .str s => parseIsoDate s
    | _ => none
  toNumber v :=
    match v with
    | .num n => .int n
    | .bool b => .int (if b then 1 else 0)
    | .null => .int 0
    | .str s =>
      match strToInt (jsTrim s) with
      | some n => .int n
      | none => if jsTrim s = "" then .int 0 else .nan
    | _ => .nan

/-! ## Request orchestration (`src/index.js`)

The cover race `Promise.race([generateCoverImage(...), timer])` is
modelled by which of the two promises settles first: the generator may
settle first with a value or with an error, or the `timeoutMs` timer
may resolve first with `null`. -/

inductive CoverRace where
  | genOk : String → CoverRace
  | genErr : CoverRace
  | timedOut : CoverRace

/-- `generateCoverImageWithTimeout`: the race result is returned as-is
(`null` meaning fallback); an error from the generator, when it settles
first, propagates to the caller. -/
def generateCoverImageWithTimeout : CoverRace → Except JsErr (Option String)
  | .genOk img => .ok (some img)
  | .genErr => .error .generic
  | .timedOut => .ok none

/-- The call site `generateHtmlFromJson(detailObj, coverImage,
intineraryData, impressionText)`: the callee declares only
`(json, base64Image)`, so the last two arguments are discarded. -/
def callGenerateHtmlFromJson (host : Host) (json : JsVal) (base64Image : Option String)
    (_intineraryData : JsVal) (_impressionText : String) : Except JsErr String :=
  generateHtmlFromJson host json base64Image

inductive Response where
  | pdfAttachment : String → Response
  | serverError : Response
  deriving DecidableEq

/-- The `POST /` handler: stage results for the external calls
(itinerary inference, cover race, impression, PDF rendering) are
parameters; any error reaches the catch-all and yields the 500
response. -/
def handlePost (host : Host) (detailObj : JsVal) (itin : Except JsErr JsVal)
    (cover : CoverRace) (impr : Except JsErr String)
    (renderPdf : String → Except JsErr String) : Response :=
  let run : Except JsErr String := do
    let intineraryData ← itin
    let coverImage ← generateCoverImageWithTimeout cover
    let impressionText ← impr
    let generatedHtml ← callGenerateHtmlFromJson host detailObj coverImage intineraryData impressionText
    renderPdf generatedHtml
  match run with
  | .ok data => .pdfAttachment data
  | .error _ => .serverError

/-! ## The PDF admission gate (`withPdfSlot`, `src/index.js` lines 160–174)

Cooperative single-threaded scheduling: each task is in one of three
phases; a scheduling step either lets a waiting task poll (both slots
taken), lets a waiting task pass the loop check and increment the
counter (one uninterrupted synchronous segment), or completes a
running task — normally or exceptionally — running the `finally`
decrement. -/

def PDF_MAX_CONCURRENCY : Nat := 2

inductive TaskPhase where
  | waiting : TaskPhase
  | running : TaskPhase
  | done : TaskPhase
  deriving DecidableEq

structure PdfState (n : Nat) where
  pdfInFlight : Nat
  phases : Fin n → TaskPhase

/-- The state after task `i` passes the loop check and takes a slot. -/
def acquired {n : Nat} (s : PdfState n) (i : Fin n) : PdfState n :=
  ⟨s.pdfInFlight + 1, Function.update s.phases i .running⟩

/-- The state after task `i` finishes (normally or exceptionally) and
the `finally` block releases its slot. -/
def released {n : Nat} (s : PdfState n) (i : Fin n) : PdfState n :=
  ⟨s.pdfInFlight - 1, Function.update s.phases i .done⟩

/-- One scheduler step.  `release` carries the Boolean `ok`
distinguishing normal completion from an exception: both run the
`finally` decrement. -/
inductive PdfStep {n : Nat} : PdfState n → PdfState n → Prop where
  | poll (s : PdfState n) (i : Fin n) :
      s.phases i = .waiting → PDF_MAX_CONCURRENCY ≤ s.pdfInFlight → PdfStep s s
  | acquire (s : PdfState n) (i : Fin n) :
      s.phases i = .waiting → s.pdfInFlight < PDF_MAX_CONCURRENCY → PdfStep s (acquired s i)
  | release (s : PdfState n) (i : Fin n) (ok : Bool) :
      s.phases i = .running → PdfStep s (released s i)

def initState (n : Nat) : PdfState n := ⟨0, fun _ => .waiting⟩

def PdfReachable {n : Nat} (s : PdfState n) : Prop :=
  Relation.ReflTransGen PdfStep (initState n) s

/-- Number of tasks whose render body is currently in flight. -/
def countRunning {n : Nat} (f : Fin n → TaskPhase) : Nat :=
  (Finset.univ.filter (fun i => f i = TaskPhase.running)).card

/-! ## Specification-side definitions for refinement claims

These definitions follow the wording of the specification (not the
source); the corresponding claims compare them with the source-derived
definitions above. -/

/-- Written from the spec: a budget category is retained exactly when
it has a truthy title and a non-null total. -/
def keptCat (a : JsVal) : Bool :=
  truthy (getD a "title") ∧ ¬ (getD a "total").isNullish

/-- Written from the spec: a detail line is well-formed when it has a
name and a non-null amount. -/
def wellFormedDetail (d : JsVal) : Bool :=
  truthy (getD d "name") ∧ ¬ (getD d "amount").isNullish

/-- The rendered text of one detail line (same shape as the source). -/
def specDetailLine (d : JsVal) : String :=
  if ¬ truthy (getD d "name") ∨ (getD d "amount").isNullish then ""
  else jsToString (getD d "name") ++ "…… " ++ jsToString (getD d "amount") ++ "円"

/-- Written from the spec: a retained category renders its row with
exactly the well-formed detail lines and contributes
`Number(total) || 0`; a dropped category renders nothing and
contributes nothing. -/
def specRenderCategory (host : Host) (a : JsVal) : String × Option JsNum :=
  let ds : List JsVal := match getD a "details" with
    | .arr ds => ds
    | _ => []
  let details := String.intercalate "<br>"
    (ds.filterMap (fun d => if wellFormedDetail d then some (specDetailLine d) else none))
  if keptCat a then
    ("<tr><td>" ++ jsToString (getD a "title") ++ "</td><td>" ++ details ++
      "</td><td class=\"money\">" ++ jsToString (getD a "total") ++ "円</td></tr>",
      some (numOr0 (host.toNumber (getD a "total"))))
  else ("", none)

/-! ## Sanity condition for the no-raise claim -/

/-- An allowance entry whose resolution cannot raise: the entry itself
and, when present, every entry of its details array are non-nullish. -/
def allowanceEntryOk (a : JsVal) : Bool :=
  !a.isNullish && (match getD a "details" with
    | .arr ds => ds.all (fun d => !d.isNullish)
    | _ => true)

/-- A payload on which the assembly stage cannot raise: the resolved
trip value is non-nullish and every record of the members and
allowance arrays (and nested details arrays) is non-nullish. -/
def sanePayload (json : JsVal) : Bool :=
  !(tripOf json).isNullish &&
  (match getD (tripOf json) "members" with
    | .arr l => l.all (fun m => !m.isNullish)
    | _ => true) &&
  (match getD (tripOf json) "allowance" with
    | .arr l => l.all allowanceEntryOk
    | _ => true)

/-! # Claims -/

/-! ## C10: the rendered markup depends only on the first two arguments -/

/-- C10: the markup produced by `generateHtmlFromJson` depends only on
the parsed detail JSON and the cover image; the AI-inferred itinerary
and narrative-text arguments passed at the call site are discarded by
the two-parameter callee and never influence the rendered document. -/
theorem c10_extra_arguments_ignored (host : Host) (json : JsVal)
    (base64Image : Option String) (itinA itinB : JsVal) (imprA imprB : String) :
    callGenerateHtmlFromJson host json base64Image itinA imprA =
      callGenerateHtmlFromJson host json base64Image itinB imprB := rfl

/-! ## C8: the field resolver -/

/-- C8 counterexample: with the exact key present but holding `null`,
the resolver does not return that found value but falls through to the
marker key; and when no lookup yields a non-nullish value the result is
`null` (the stripped-key value), not `undefined`. -/
theorem c8_nullish_lookup_cex :
    get (.obj [("a", .null), ("a!", .num 5)]) "a" = .ok (.num 5) ∧
    get (.obj [("a", .null)]) "a" = .ok .null :=
  ⟨rfl, rfl⟩

/-- C8 amended: the resolver tries the exact key, the key with the
trailing marker appended, and the key with a trailing marker stripped,
but skips a lookup whose value is nullish (`??`); when all three are
nullish the result is the stripped-key value (possibly `null`, not
necessarily `undefined`).  No error is raised on an object receiver,
and the resolver is a pure function of the object. -/
theorem get_obj_char (fields : List (String × JsVal)) (key : String) :
    get (.obj fields) key = .ok (
      if ¬ (lookupOwn fields key).isNullish then lookupOwn fields key
      else if ¬ (lookupOwn fields (key ++ "!")).isNullish then lookupOwn fields (key ++ "!")
      else lookupOwn fields (stripMarker key)) := by
  by_cases h1 : (lookupOwn fields key).isNullish <;>
    by_cases h2 : (lookupOwn fields (key ++ "!")).isNullish <;>
      simp [get, propAccess, Except.instMonad, Except.bind, Except.pure, h1, h2]

theorem c8_resolver_characterisation (fields : List (String × JsVal)) (key : String) :
    get (.obj fields) key = .ok (
      if ¬ (lookupOwn fields key).isNullish then lookupOwn fields key
      else if ¬ (lookupOwn fields (key ++ "!")).isNullish then lookupOwn fields (key ++ "!")
      else lookupOwn fields (stripMarker key)) :=
  get_obj_char fields key

/-! ## C1: the cover-generation race -/

/-- C1 counterexample: when the cover generator settles with an error
before the timeout, the error propagates out of
`generateCoverImageWithTimeout` and the whole request fails with the
500 response instead of proceeding with no cover. -/
theorem c1_cover_failure_fails_request :
    handlePost isoHost (.obj []) (.ok (.obj [])) .genErr (.ok "") Except.ok =
      .serverError := rfl

/-- C1 amended: when the timer wins the race the stage yields `null`
without error, the cover area renders empty, and the request succeeds
whenever the remaining stages do; only a generator error that settles
before the timeout fails the request. -/
theorem c1_timeout_degrades_to_no_cover (host : Host) (detailObj itinV : JsVal)
    (imprT : String) (renderPdf : String → Except JsErr String) :
    generateCoverImageWithTimeout .timedOut = Except.ok none ∧
    coverHtml none = "" ∧
    handlePost host detailObj (.ok itinV) .timedOut (.ok imprT) renderPdf =
      (match generateHtmlFromJson host detailObj none with
       | .ok html =>
         match renderPdf html with
         | .ok data => Response.pdfAttachment data
         | .error _ => Response.serverError
       | .error _ => Response.serverError) := by
  refine ⟨rfl, rfl, ?_⟩
  show (match (generateHtmlFromJson host detailObj none).bind renderPdf with
    | .ok data => Response.pdfAttachment data
    | .error _ => Response.serverError) = _
  cases h : generateHtmlFromJson host detailObj none with
  | ok html => cases renderPdf html <;> simp [Except.bind]
  | error e => simp [Except.bind]

/-! ## C9: exception behaviour of the assembly stage -/

/-- C9 counterexample: the assembly stage does raise for bad input
data — a nullish payload, or a `null` record in the members array,
raises a `TypeError` from the field resolver instead of degrading by
omission. -/
theorem c9_nullish_payload_raises :
    generateHtmlFromJson isoHost .null none = .error .typeError ∧
    generateHtmlFromJson isoHost (.obj [("trip", .obj [("members", .arr [.null])])]) none =
      .error .typeError :=
  ⟨rfl, rfl⟩

/-! ## C4: filtering and place-name fallback of itinerary records -/

/-- C4 counterexample: a record with a parseable date-time and a
whitespace-only place name is blank in the drop-rule sense
(`trim` empty), yet it is kept with its place name verbatim — the
fixed placeholder is not substituted. -/
theorem c4_whitespace_place_cex :
    eventsOf isoHost [.obj [("placeName", .str " "), ("dateTime", .str "2025-05-10")]] =
      [ItinEvent.mk .undefined (.str " ") (some "2025/05/10") "09:00" (some 1746835200000) 0] ∧
    jsTrim " " = "" :=
  ⟨rfl, rfl⟩

/-! ## C7: date-range formatting -/

/-- C7: for parseable start and end dates, `formatRange` produces the
full imperial-calendar start form joined by `〜` to an end form that is
abbreviated to day+weekday exactly when the two formatted month
components coincide, and shows month+day+weekday otherwise. -/
theorem c7_format_range (host : Host) (startRaw endRaw : JsVal) (ts te : Int)
    (hs : toValidDate host startRaw = some ts)
    (he : toValidDate host endRaw = some te) :
    formatRange host startRaw endRaw =
      (getJpCalParts ts).era ++ (getJpCalParts ts).year ++ "年" ++
        (getJpCalParts ts).month ++ "月" ++ (getJpCalParts ts).day ++ "日(" ++
        (getJpCalParts ts).weekday ++ ")" ++ "〜" ++
      (if (getJpCalParts ts).month = (getJpCalParts te).month
       then (getJpCalParts te).day ++ "日(" ++ (getJpCalParts te).weekday ++ ")"
       else (getJpCalParts te).month ++ "月" ++ (getJpCalParts te).day ++ "日(" ++
         (getJpCalParts te).weekday ++ ")") := by
  unfold formatRange
  rw [hs, he]

/-- C7 witness: the two concrete examples of the claim.  Start
2025-05-10 and end 2025-05-12 share the month, so the end abbreviates
to day+weekday; start 2025-05-31 and end 2025-06-01 do not, so the end
shows month+day+weekday.  Era 令和, year 7, weekdays in Asia/Tokyo. -/
theorem c7_format_range_witness :
    formatRange isoHost (.str "2025-05-10") (.str "2025-05-12") =
      "令和7年5月10日(土)〜12日(月)" ∧
    formatRange isoHost (.str "2025-05-31") (.str "2025-06-01") =
      "令和7年5月31日(土)〜6月1日(日)" := by
  constructor
  · rw [c7_format_range isoHost (.str "2025-05-10") (.str "2025-05-12")
      1746835200000 1747008000000 rfl rfl]
    rfl
  · rw [c7_format_range isoHost (.str "2025-05-31") (.str "2025-06-01")
      1748649600000 1748736000000 rfl rfl]
    rfl

/-! ## C6: member role labelling -/

theorem mapIdx_eq_map_of_ignoring {α β : Type} (f : Nat → α → β) (g : α → β)
    (h : ∀ i a, f i a = g a) : ∀ l : List α, l.mapIdx f = l.map g := by
  intro l
  induction l generalizing f with
  | nil => simp
  | cons a t ih =>
    simp only [List.mapIdx_cons, List.map_cons, h]
    exact congrArg _ (ih _ (fun i a => h (i + 1) a))

theorem mapIdx_congr_fn {α β : Type} (f g : Nat → α → β)
    (h : ∀ i a, f i a = g i a) : ∀ l : List α, l.mapIdx f = l.mapIdx g := by
  intro l
  induction l generalizing f g with
  | nil => simp
  | cons a t ih =>
    simp only [List.mapIdx_cons, h]
    exact congrArg _ (ih _ _ (fun i a => h (i + 1) a))

/-- C6 counterexample: a member whose unrecognised role tag names an
inherited `Object.prototype` member — here `toString` — is not labelled
with the generic member label: `roleMap["toString"]` is the truthy
inherited native function, which interpolates into the row as its
stringification. -/
theorem c6_proto_role_cex :
    labelsOf [Member.mk (.str "A") .undefined (.str "toString")] =
      ["function toString() \x7b [native code] \x7d"] ∧
    "function toString() \x7b [native code] \x7d" ≠ "班員" :=
  ⟨rfl, by decide⟩

/-- C6 amended: on a processed roster (entries without a name already
dropped), if any member supplies a non-blank role tag then every member
is labelled individually — the tag is resolved by JavaScript property
lookup on the role map, so a recognised tag maps to its display label,
a tag naming an inherited `Object.prototype` member maps to that truthy
inherited member (its stringification), and any other or blank tag maps
to the generic member label — and the leader default is never applied;
if no member supplies a role, the first member is labelled leader and
all others member. -/
theorem c6_member_role_labels (ps : List Member) :
    (anyProvidedRole ps = true →
      labelsOf ps = ps.map (fun p =>
        if roleKey p ≠ "" then (roleJsLookup (roleKey p)).getD "班員" else "班員")) ∧
    (anyProvidedRole ps = false →
      labelsOf ps = ps.mapIdx (fun i _ => if i = 0 then "班長" else "班員")) := by
  constructor
  · intro h
    unfold labelsOf
    rw [h]
    exact mapIdx_eq_map_of_ignoring _ _ (fun i p => by
      by_cases hk : roleKey p = "" <;>
        cases hLook : roleJsLookup (roleKey p) <;>
          simp [roleLabel, hk, hLook, Option.getD]) ps
  · intro h
    unfold labelsOf
    rw [h]
    exact mapIdx_congr_fn _ _ (fun i p => by simp [roleLabel]) ps

/-- C6 amended witness: the two roster scenarios of the spec — three
members with no roles give leader/member/member; three members where
exactly one supplies the recognised tag `camera` give
member/カメラ係/member. -/
theorem c6_member_role_labels_witness :
    labelsOf [Member.mk (.str "A") .undefined .undefined, Member.mk (.str "B") .undefined .undefined,
        Member.mk (.str "C") .undefined .undefined] = ["班長", "班員", "班員"] ∧
    labelsOf [Member.mk (.str "A") .undefined .undefined, Member.mk (.str "B") .undefined (.str "camera"),
        Member.mk (.str "C") .undefined .undefined] = ["班員", "カメラ係", "班員"] := by
  constructor
  · rw [(c6_member_role_labels
      [Member.mk (.str "A") .undefined .undefined, Member.mk (.str "B") .undefined .undefined,
        Member.mk (.str "C") .undefined .undefined]).2 rfl]
    rfl
  · rw [(c6_member_role_labels
      [Member.mk (.str "A") .undefined .undefined, Member.mk (.str "B") .undefined (.str "camera"),
        Member.mk (.str "C") .undefined .undefined]).1 rfl]
    rfl

/-! ## Shared helper lemmas about the field resolver -/

/-- On a non-nullish receiver the resolver never raises and agrees with
its total variant. -/
theorem get_ok (a : JsVal) (k : String) (h : a.isNullish = false) :
    get a k = .ok (getD a k) := by
  cases a with
  | null => simp [JsVal.isNullish] at h
  | undefined => simp [JsVal.isNullish] at h
  | obj fields => rw [get_obj_char, getD, get_obj_char]
  | bool b => rfl
  | num n => rfl
  | str s => rfl
  | arr l => rfl

/-- On a nullish receiver the first property access raises. -/
theorem get_err (a : JsVal) (h : a.isNullish = true) (k : String) :
    get a k = .error .typeError := by
  cases a with
  | null => rfl
  | undefined => rfl
  | bool b => simp [JsVal.isNullish] at h
  | num n => simp [JsVal.isNullish] at h
  | str s => simp [JsVal.isNullish] at h
  | arr l => simp [JsVal.isNullish] at h
  | obj fields => simp [JsVal.isNullish] at h

/-- A successful resolution implies the receiver was non-nullish. -/
theorem not_nullish_of_get_ok {a : JsVal} {k : String} {v : JsVal}
    (h : get a k = .ok v) : a.isNullish = false := by
  cases a <;> first
    | rfl
    | simp [get, propAccess, Except.instMonad, Except.bind] at h

/-! ## C5: budget aggregation -/

theorem specDetailLine_ne_empty {d : JsVal} (h : wellFormedDetail d = true) :
    specDetailLine d ≠ "" := by
  unfold wellFormedDetail at h
  simp only [Bool.and_eq_true, decide_eq_true_eq] at h
  unfold specDetailLine
  rw [if_neg (by simp [h.1, h.2])]
  intro hempty
  have := congrArg String.data hempty
  simp [String.data_append] at this

theorem specDetailLine_empty {d : JsVal} (h : wellFormedDetail d = false) :
    specDetailLine d = "" := by
  unfold wellFormedDetail at h
  unfold specDetailLine
  rw [if_pos]
  by_cases h1 : truthy (getD d "name") <;> simp_all

theorem except_bind_ok {β γ : Type} (x : β) (g : β → Except JsErr γ) :
    (Except.ok x >>= g) = g x := rfl

theorem except_bind_error {β γ : Type} (e : JsErr) (g : β → Except JsErr γ) :
    ((Except.error e : Except JsErr β) >>= g) = .error e := rfl

theorem detailLine_ok_inv {d : JsVal} {s : String}
    (h : detailLine d = .ok s) : s = specDetailLine d := by
  by_cases hnull : d.isNullish = true
  · rw [detailLine, get_err d hnull "name", except_bind_error] at h
    exact absurd h (by simp)
  · rw [detailLine] at h
    rw [get_ok d "name" (by simpa using hnull), get_ok d "amount" (by simpa using hnull)] at h
    simp only [except_bind_ok] at h
    unfold specDetailLine
    by_cases hc : ¬ truthy (getD d "name") = true ∨ (getD d "amount").isNullish = true
    · rw [if_pos hc] at h
      rw [if_pos hc]
      exact (Except.ok.inj h).symm
    · rw [if_neg hc] at h
      rw [if_neg hc]
      exact (Except.ok.inj h).symm

theorem mapExcept_ok_inv {α β : Type} {f : α → Except JsErr β} {g : α → β}
    (hf : ∀ a b, f a = .ok b → b = g a) :
    ∀ {l : List α} {bs : List β}, mapExcept f l = .ok bs → bs = l.map g := by
  intro l
  induction l with
  | nil =>
    intro bs h
    rw [mapExcept] at h
    simpa using (Except.ok.inj h).symm
  | cons a rest ih =>
    intro bs h
    rw [mapExcept] at h
    cases h1 : f a with
    | error e => rw [h1, except_bind_error] at h; exact absurd h (by simp)
    | ok b =>
      rw [h1] at h
      simp only [except_bind_ok] at h
      cases h2 : mapExcept f rest with
      | error e => rw [h2, except_bind_error] at h; exact absurd h (by simp)
      | ok bs2 =>
        rw [h2] at h
        simp only [except_bind_ok] at h
        have hb := Except.ok.inj h
        simp [← hb, hf a b h1, ih h2]

theorem filter_specDetail_eq : ∀ ds : List JsVal,
    (ds.map specDetailLine).filter (fun s => s ≠ "") =
      ds.filterMap (fun d => if wellFormedDetail d then some (specDetailLine d) else none) := by
  intro ds
  induction ds with
  | nil => rfl
  | cons d rest ih =>
    simp only [List.map_cons, List.filter_cons, List.filterMap_cons]
    by_cases h : wellFormedDetail d = true
    · have hne := specDetailLine_ne_empty h
      rw [if_pos (by simpa using hne), if_pos h, ih]
    · have he := specDetailLine_empty (by simpa using h)
      rw [if_neg (by simp [he]), if_neg h, ih]

theorem keptCat_false_of {a : JsVal}
    (hc : ¬ truthy (getD a "title") = true ∨ (getD a "total").isNullish = true) :
    keptCat a = false := by
  unfold keptCat
  rcases hc with hc | hc
  · simp [hc]
  · simp [hc]

theorem keptCat_true_of {a : JsVal}
    (hc : ¬ (¬ truthy (getD a "title") = true ∨ (getD a "total").isNullish = true)) :
    keptCat a = true := by
  push_neg at hc
  unfold keptCat
  simp [hc.1, hc.2]

theorem except_pure_bind {β γ : Type} (x : β) (g : β → Except JsErr γ) :
    ((pure x : Except JsErr β) >>= g) = g x := rfl

theorem renderCategory_ok_inv {host : Host} {a : JsVal} {cat : String × Option JsNum}
    (h : renderCategory host a = .ok cat) : cat = specRenderCategory host a := by
  by_cases hnull : a.isNullish = true
  · rw [renderCategory, get_err a hnull "title", except_bind_error] at h
    exact absurd h (by simp)
  · rw [renderCategory] at h
    rw [get_ok a "title" (by simpa using hnull), get_ok a "total" (by simpa using hnull),
      get_ok a "details" (by simpa using hnull)] at h
    simp only [except_bind_ok] at h
    cases hm : mapExcept detailLine (match getD a "details" with
        | .arr ds => ds
        | _ => []) with
    | error e => rw [hm, except_bind_error] at h; exact absurd h (by simp)
    | ok lines =>
      rw [hm] at h
      simp only [except_bind_ok] at h
      have hl : lines = (match getD a "details" with
          | .arr ds => ds
          | _ => ([] : List JsVal)).map specDetailLine :=
        mapExcept_ok_inv (fun d s hds => detailLine_ok_inv hds) hm
      by_cases hc : ¬ truthy (getD a "title") = true ∨ (getD a "total").isNullish = true
      · rw [if_pos hc] at h
        rw [← Except.ok.inj h]
        simp [specRenderCategory, keptCat_false_of hc]
      · rw [if_neg hc] at h
        try simp only [except_pure_bind] at h
        rw [← Except.ok.inj h]
        simp only [specRenderCategory, keptCat_true_of hc, if_true]
        rw [hl, filter_specDetail_eq]

theorem budgetCats_inv {host : Host} {l : List JsVal} {cats : List (String × Option JsNum)}
    (h : budgetCatsOf host l = .ok cats) : cats = l.map (specRenderCategory host) :=
  mapExcept_ok_inv (fun _ _ hc => renderCategory_ok_inv hc) h


theorem spec_filterMap_snd (host : Host) : ∀ l : List JsVal,
    ((l.map (specRenderCategory host)).filterMap Prod.snd) =
      (l.filter (fun a => keptCat a)).map (fun a => numOr0 (host.toNumber (getD a "total"))) := by
  intro l
  induction l with
  | nil => rfl
  | cons a rest ih =>
    by_cases h : keptCat a = true
    · simp [List.filter_cons, h, specRenderCategory, ih]
    · simp [List.filter_cons, h, specRenderCategory, ih]

/-- C5: when the allowance array renders, the rendered categories
refine the specification: each retained category (truthy title and
non-null total) renders with exactly its well-formed detail lines and
contributes `Number(total) || 0`; the grand total is the sum over
exactly the retained categories; dropped categories render nothing and
contribute nothing; malformed detail lines are omitted but do not
remove their parent category. -/
theorem c5_budget_grand_total (host : Host) (l : List JsVal)
    (cats : List (String × Option JsNum))
    (h : budgetCatsOf host l = .ok cats) :
    cats = l.map (specRenderCategory host) ∧
    (cats.filterMap Prod.snd).foldl jsAdd (.int 0) =
      ((l.filter (fun a => keptCat a)).map
        (fun a => numOr0 (host.toNumber (getD a "total")))).foldl jsAdd (.int 0) := by
  have h1 := budgetCats_inv h
  exact ⟨h1, by rw [h1, spec_filterMap_snd]⟩

/-- C5 witness: a mixed allowance list — one retained category with one
well-formed and one malformed detail line, and one dropped category —
evaluates to a grand total equal to the retained contribution. -/
theorem c5_budget_grand_total_witness :
    budgetCatsOf isoHost
      [.obj [("title", .str "食費"), ("total", .num 1000),
        ("details", .arr [.obj [("name", .str "パン"), ("amount", .num 200)],
          .obj [("name", .str ""), ("amount", .num 5)]])],
       .obj [("total", .num 999)]] =
      .ok [("<tr><td>食費</td><td>パン…… 200円</td><td class=\"money\">1000円</td></tr>",
        some (.int 1000)), ("", none)] ∧
    ([("<tr><td>食費</td><td>パン…… 200円</td><td class=\"money\">1000円</td></tr>",
        some (JsNum.int 1000)), ("", none)].filterMap Prod.snd).foldl jsAdd (.int 0) =
      .int 1000 := by
  constructor
  · rfl
  · rw [(c5_budget_grand_total isoHost
      [.obj [("title", .str "食費"), ("total", .num 1000),
        ("details", .arr [.obj [("name", .str "パン"), ("amount", .num 200)],
          .obj [("name", .str ""), ("amount", .num 5)]])],
       .obj [("total", .num 999)]]
      [("<tr><td>食費</td><td>パン…… 200円</td><td class=\"money\">1000円</td></tr>",
        some (.int 1000)), ("", none)] rfl).2]
    decide

/-! ## C9: no-raise on sane payloads -/

theorem mapExcept_ok_of {α β : Type} {f : α → Except JsErr β} :
    ∀ {l : List α}, (∀ a ∈ l, ∃ b, f a = .ok b) → ∃ bs, mapExcept f l = .ok bs := by
  intro l
  induction l with
  | nil => intro _; exact ⟨[], rfl⟩
  | cons a rest ih =>
    intro hl
    obtain ⟨b, hb⟩ := hl a (by simp)
    obtain ⟨bs, hbs⟩ := ih (fun x hx => hl x (by simp [hx]))
    refine ⟨b :: bs, ?_⟩
    rw [mapExcept, hb, except_bind_ok, hbs, except_bind_ok]
    rfl

theorem processMember_ok (m : JsVal) (hm : m.isNullish = false) :
    ∃ b, processMember m = .ok b := by
  rw [processMember, get_ok m "name" hm, get_ok m "episode" hm, get_ok m "role" hm]
  simp only [except_bind_ok]
  by_cases hc : ¬ truthy (getD m "name") = true
  · rw [if_pos hc]; exact ⟨none, rfl⟩
  · rw [if_neg hc]
    exact ⟨_, rfl⟩

theorem membersRowsOf_ok (v : JsVal)
    (h : (match v with
      | .arr l => l.all (fun m => !m.isNullish)
      | _ => true) = true) :
    (membersRowsOf v).isOk = true := by
  cases v with
  | arr l =>
    simp only [List.all_eq_true] at h
    obtain ⟨ms, hms⟩ := mapExcept_ok_of (f := processMember)
      (fun m hmem => processMember_ok m (by simpa using h m hmem))
    rw [membersRowsOf, processedOf, hms]
    rfl
  | null => rfl
  | undefined => rfl
  | bool b => rfl
  | num n => rfl
  | str s => rfl
  | obj fields => rfl

theorem detailLine_ok_of (d : JsVal) (hd : d.isNullish = false) :
    ∃ s, detailLine d = .ok s := by
  rw [detailLine, get_ok d "name" hd, get_ok d "amount" hd]
  simp only [except_bind_ok]
  by_cases hc : ¬ truthy (getD d "name") = true ∨ (getD d "amount").isNullish = true
  · rw [if_pos hc]; exact ⟨"", rfl⟩
  · rw [if_neg hc]; exact ⟨_, rfl⟩

theorem renderCategory_ok_of (host : Host) (a : JsVal)
    (h : allowanceEntryOk a = true) : ∃ cat, renderCategory host a = .ok cat := by
  unfold allowanceEntryOk at h
  rw [Bool.and_eq_true] at h
  have ha : a.isNullish = false := by simpa using h.1
  have hds : ∀ d ∈ (match getD a "details" with
      | .arr ds => ds
      | _ => ([] : List JsVal)), d.isNullish = false := by
    intro d hd
    cases hda : getD a "details" <;> rw [hda] at hd <;> simp at hd
    case arr ds =>
      have h2 := h.2
      rw [hda] at h2
      simp only [List.all_eq_true] at h2
      simpa using h2 d hd
  obtain ⟨lines, hlines⟩ := mapExcept_ok_of (f := detailLine)
    (fun d hd => detailLine_ok_of d (hds d hd))
  rw [renderCategory, get_ok a "title" ha, get_ok a "total" ha, get_ok a "details" ha]
  simp only [except_bind_ok]
  rw [hlines, except_bind_ok]
  by_cases hc : ¬ truthy (getD a "title") = true ∨ (getD a "total").isNullish = true
  · rw [if_pos hc]; exact ⟨_, rfl⟩
  · rw [if_neg hc]; exact ⟨_, rfl⟩

theorem budgetOf_ok (host : Host) (v : JsVal)
    (h : (match v with
      | .arr l => l.all allowanceEntryOk
      | _ => true) = true) :
    (budgetOf host v).isOk = true := by
  cases v with
  | arr l =>
    simp only [List.all_eq_true] at h
    obtain ⟨cats, hcats⟩ := mapExcept_ok_of (f := renderCategory host)
      (fun a hmem => renderCategory_ok_of host a (h a hmem))
    rw [budgetOf, budgetCatsOf, hcats]
    rfl
  | null => rfl
  | undefined => rfl
  | bool b => rfl
  | num n => rfl
  | str s => rfl
  | obj fields => rfl

/-- C9 amended: the assembly stage cannot raise provided the resolved
trip value is non-nullish and every record of the members and allowance
arrays (with their details) is non-nullish; within that domain all
malformed data degrades by omission and a markup string is returned.
(The counterexample shows nullish records do raise.) -/
theorem c9_no_raise_on_sane_payloads (host : Host) (json : JsVal) (cover : Option String)
    (h : sanePayload json = true) :
    (generateHtmlFromJson host json cover).isOk = true := by
  unfold sanePayload at h
  rw [Bool.and_eq_true, Bool.and_eq_true] at h
  obtain ⟨⟨h1, h2⟩, h3⟩ := h
  have htrip : (tripOf json).isNullish = false := by simpa using h1
  have hmrOk := membersRowsOf_ok (getD (tripOf json) "members") h2
  have hbudOk := budgetOf_ok host (getD (tripOf json) "allowance") h3
  cases hmr : membersRowsOf (getD (tripOf json) "members") with
  | error e => rw [hmr] at hmrOk; exact absurd hmrOk (by simp [Except.isOk, Except.toBool])
  | ok mr =>
  cases hbud : budgetOf host (getD (tripOf json) "allowance") with
  | error e => rw [hbud] at hbudOk; exact absurd hbudOk (by simp [Except.isOk, Except.toBool])
  | ok bud =>
  rw [generateHtmlFromJson, get_ok _ "startDate" htrip, get_ok _ "endDate" htrip,
    get_ok _ "hotels" htrip, get_ok _ "purpose" htrip, get_ok _ "members" htrip,
    get_ok _ "allowance" htrip]
  simp only [except_bind_ok]
  rw [hmr, except_bind_ok, hbud, except_bind_ok]
  rfl

/-- C9 amended witness: a concrete sane payload with a member and an
allowance category renders without raising. -/
theorem c9_no_raise_on_sane_payloads_witness :
    sanePayload (.obj [("trip", .obj [
      ("members", .arr [.obj [("name", .str "A")]]),
      ("allowance", .arr [.obj [("title", .str "雑費"), ("total", .num 5)]])])]) = true ∧
    (generateHtmlFromJson isoHost (.obj [("trip", .obj [
      ("members", .arr [.obj [("name", .str "A")]]),
      ("allowance", .arr [.obj [("title", .str "雑費"), ("total", .num 5)]])])]) none).isOk
      = true :=
  ⟨rfl, c9_no_raise_on_sane_payloads isoHost (.obj [("trip", .obj [
      ("members", .arr [.obj [("name", .str "A")]]),
      ("allowance", .arr [.obj [("title", .str "雑費"), ("total", .num 5)]])])]) none rfl⟩

/-! ## C3: itinerary ordering -/

instance : IsTotal String keyLe := ⟨by
  intro a b
  by_cases hab : a = b
  · exact Or.inl (Or.inr hab)
  · by_cases ha : a = "日付不明"
    · by_cases hb : b = "日付不明"
      · exact absurd (ha.trans hb.symm) hab
      · exact Or.inr (Or.inl (by simp [keyCmp, ha, hb]))
    · by_cases hb : b = "日付不明"
      · exact Or.inl (Or.inl (by simp [keyCmp, ha, hb]))
      · rcases le_total (numOfKey a) (numOfKey b) with hle | hle
        · refine Or.inl (Or.inl ?_)
          simp only [keyCmp, ha, hb, if_false]
          omega
        · refine Or.inr (Or.inl ?_)
          simp only [keyCmp, ha, hb, if_false]
          omega⟩

instance : IsTrans String keyLe := ⟨by
  intro a b cc hab hbc
  rcases hab with hab | hab
  · rcases hbc with hbc | hbc
    · left
      by_cases ha : a = "日付不明"
      · simp [keyCmp, ha] at hab
      · by_cases hb : b = "日付不明"
        · simp [keyCmp, hb] at hbc
        · by_cases hc : cc = "日付不明"
          · simp [keyCmp, ha, hc]
          · simp only [keyCmp, ha, hb, hc, if_false] at hab hbc ⊢
            omega
    · subst hbc; exact Or.inl hab
  · subst hab; exact hbc⟩

instance : IsTotal ItinEvent evLe := ⟨by
  intro x y
  rcases lt_trichotomy (tsT x) (tsT y) with h | h | h
  · exact Or.inl (Or.inl h)
  · rcases le_total x.uploadIndex y.uploadIndex with hle | hle
    · exact Or.inl (Or.inr ⟨h, hle⟩)
    · exact Or.inr (Or.inr ⟨h.symm, hle⟩)
  · exact Or.inr (Or.inl h)⟩

instance : IsTrans ItinEvent evLe := ⟨by
  intro x y z hxy hyz
  rcases hxy with hxy | ⟨hxy, hxy2⟩
  · rcases hyz with hyz | ⟨hyz, _⟩
    · exact Or.inl (lt_trans hxy hyz)
    · exact Or.inl (lt_of_lt_of_eq hxy hyz)
  · rcases hyz with hyz | ⟨hyz, hyz2⟩
    · exact Or.inl (lt_of_eq_of_lt hxy hyz)
    · exact Or.inr ⟨hxy.trans hyz, le_trans hxy2 hyz2⟩⟩

theorem mkEvent_uploadIndex {host : Host} {i : Nat} {m : JsVal} {ev : ItinEvent}
    (h : mkEvent host i m = some ev) : ev.uploadIndex = i := by
  simp only [mkEvent] at h
  repeat' split at h
  all_goals first
    | exact Option.noConfusion h
    | (rw [← Option.some.inj h])

theorem mem_enumFrom_fst {α : Type} : ∀ {n : Nat} {l : List α} {p : Nat × α},
    p ∈ List.enumFrom n l → n ≤ p.1 := by
  intro n l
  induction l generalizing n with
  | nil => intro p hp; simp [List.enumFrom] at hp
  | cons a rest ih =>
    intro p hp
    rcases (List.mem_cons).mp hp with rfl | hp
    · exact le_refl _
    · exact le_trans (Nat.le_succ n) (ih hp)

theorem enumFrom_pairwise_fst {α : Type} : ∀ (n : Nat) (l : List α),
    (List.enumFrom n l).Pairwise (fun p q => p.1 < q.1) := by
  intro n l
  induction l generalizing n with
  | nil => simp [List.enumFrom]
  | cons a rest ih =>
    rw [List.enumFrom, List.pairwise_cons]
    exact ⟨fun q hq => lt_of_lt_of_le (Nat.lt_succ_self n) (mem_enumFrom_fst hq), ih (n + 1)⟩

theorem eventsOf_pairwise (host : Host) (metas : List JsVal) :
    (eventsOf host metas).Pairwise (fun x y => x.uploadIndex < y.uploadIndex) := by
  unfold eventsOf
  rw [List.pairwise_filterMap]
  have henum : metas.enum.Pairwise (fun p q => p.1 < q.1) := by
    rw [List.enum]
    exact enumFrom_pairwise_fst 0 metas
  refine henum.imp ?_
  intro p q hpq ev hev ev2 hev2
  rw [Option.mem_def] at hev hev2
  rw [mkEvent_uploadIndex hev, mkEvent_uploadIndex hev2]
  exact hpq

theorem insertEvent_keys (gs : List (String × List ItinEvent)) (k : String) (ev : ItinEvent) :
    (insertEvent gs k ev).map Prod.fst =
      if k ∈ gs.map Prod.fst then gs.map Prod.fst else gs.map Prod.fst ++ [k] := by
  induction gs with
  | nil => simp [insertEvent]
  | cons p rest ih =>
    obtain ⟨k0, l⟩ := p
    by_cases hk : k0 = k
    · subst hk
      simp [insertEvent]
    · rw [show insertEvent ((k0, l) :: rest) k ev = (k0, l) :: insertEvent rest k ev by
        simp [insertEvent, hk]]
      simp only [List.map_cons, ih]
      by_cases hmem : k ∈ rest.map Prod.fst
      · rw [if_pos hmem, if_pos (by simp [hmem])]
      · rw [if_neg hmem, if_neg (by simp [hmem, Ne.symm hk])]
        simp

theorem insertEvent_mem {gs : List (String × List ItinEvent)} {k : String} {ev : ItinEvent}
    {p : String × List ItinEvent} (hp : p ∈ insertEvent gs k ev) :
    p ∈ gs ∨ (∃ l, p = (k, l ++ [ev]) ∧ (k, l) ∈ gs) ∨ p = (k, [ev]) := by
  induction gs with
  | nil =>
    simp [insertEvent] at hp
    exact Or.inr (Or.inr hp)
  | cons q rest ih =>
    obtain ⟨k0, l0⟩ := q
    by_cases hk : k0 = k
    · subst hk
      simp only [insertEvent, if_pos rfl] at hp
      rcases (List.mem_cons).mp hp with rfl | hp
      · exact Or.inr (Or.inl ⟨l0, rfl, by simp⟩)
      · exact Or.inl (by simp [hp])
    · rw [show insertEvent ((k0, l0) :: rest) k ev = (k0, l0) :: insertEvent rest k ev by
        simp [insertEvent, hk]] at hp
      rcases (List.mem_cons).mp hp with rfl | hp
      · exact Or.inl (by simp)
      · rcases ih hp with hmem | ⟨l, rfl, hl⟩ | rfl
        · exact Or.inl (by simp [hmem])
        · exact Or.inr (Or.inl ⟨l, rfl, by simp [hl]⟩)
        · exact Or.inr (Or.inr rfl)

theorem groupsOf_aux :
    ∀ (evs : List ItinEvent) (gs : List (String × List ItinEvent)),
      (gs.map Prod.fst).Nodup →
      (∀ p ∈ gs, p.2.Pairwise (fun x y => x.uploadIndex < y.uploadIndex)) →
      (∀ p ∈ gs, ∀ e ∈ p.2, ∀ ev ∈ evs, e.uploadIndex < ev.uploadIndex) →
      evs.Pairwise (fun x y => x.uploadIndex < y.uploadIndex) →
      ((evs.foldl (fun gs ev => insertEvent gs (keyOf ev) ev) gs).map Prod.fst).Nodup ∧
      (∀ p ∈ evs.foldl (fun gs ev => insertEvent gs (keyOf ev) ev) gs,
        p.2.Pairwise (fun x y => x.uploadIndex < y.uploadIndex)) := by
  intro evs
  induction evs with
  | nil => intro gs h1 h2 _ _; exact ⟨h1, h2⟩
  | cons b rest ih =>
    intro gs h1 h2 h3 h4
    simp only [List.foldl_cons]
    have h4r := (List.pairwise_cons.mp h4).2
    have h4head := (List.pairwise_cons.mp h4).1
    apply ih
    · rw [insertEvent_keys]
      by_cases hmem : keyOf b ∈ gs.map Prod.fst
      · rw [if_pos hmem]; exact h1
      · rw [if_neg hmem]
        simp [List.nodup_append, h1, hmem]
    · intro p hp
      rcases insertEvent_mem hp with hmem | ⟨l, rfl, hl⟩ | rfl
      · exact h2 p hmem
      · rw [List.pairwise_append]
        refine ⟨h2 _ hl, by simp, ?_⟩
        intro e he x hx
        rw [List.mem_singleton] at hx
        rw [hx]
        exact h3 _ hl e he b (by simp)
      · simp
    · intro p hp e he ev2 hev2
      rcases insertEvent_mem hp with hmem | ⟨l, rfl, hl⟩ | rfl
      · exact h3 p hmem e he ev2 (by simp [hev2])
      · rcases List.mem_append.mp he with hel | hee
        · exact h3 _ hl e hel ev2 (by simp [hev2])
        · rw [List.mem_singleton] at hee
          subst hee
          exact h4head ev2 hev2
      · rw [List.mem_singleton] at he
        subst he
        exact h4head ev2 hev2
    · exact h4r

theorem groupsOf_keys_nodup (evs : List ItinEvent)
    (h : evs.Pairwise (fun x y => x.uploadIndex < y.uploadIndex)) :
    ((groupsOf evs).map Prod.fst).Nodup :=
  (groupsOf_aux evs [] (by simp) (by simp) (by simp) h).1

theorem groupsOf_lists_pairwise (evs : List ItinEvent)
    (h : evs.Pairwise (fun x y => x.uploadIndex < y.uploadIndex)) :
    ∀ p ∈ groupsOf evs, p.2.Pairwise (fun x y => x.uploadIndex < y.uploadIndex) :=
  (groupsOf_aux evs [] (by simp) (by simp) (by simp) h).2

theorem lookup_mem {β : Type} : ∀ {gs : List (String × β)} {k : String} {l : β},
    gs.lookup k = some l → (k, l) ∈ gs := by
  intro gs
  induction gs with
  | nil => intro k l h; simp [List.lookup] at h
  | cons q rest ih =>
    intro k l h
    obtain ⟨k0, l0⟩ := q
    rw [List.lookup] at h
    by_cases hk : k = k0
    · subst hk
      simp only [beq_self_eq_true] at h
      rw [Option.some.inj h]
      simp
    · rw [show (k == k0) = false by simpa using hk] at h
      exact List.mem_cons_of_mem _ (ih h)

/-- C3: for every input event list, the rendered day groups are ordered
with the unknown-day bucket last and the remaining keys ascending by
the numeric value of the date string, and within each group events are
ordered by parsed timestamp ascending (a missing timestamp counting as
positive infinity) with ties broken by upload index ascending. -/
theorem c3_itinerary_ordering (host : Host) (metas : List JsVal) :
    ((sortedGroupsOf (eventsOf host metas)).map Prod.fst).Pairwise
      (fun a b => a ≠ "日付不明" ∧ (b = "日付不明" ∨ numOfKey a ≤ numOfKey b)) ∧
    (sortedGroupsOf (eventsOf host metas)).Forall
      (fun p => p.2.Pairwise (fun x y =>
        tsT x < tsT y ∨ (tsT x = tsT y ∧ x.uploadIndex < y.uploadIndex))) := by
  have hidx := eventsOf_pairwise host metas
  constructor
  · have hmap : (sortedGroupsOf (eventsOf host metas)).map Prod.fst =
        List.insertionSort keyLe ((groupsOf (eventsOf host metas)).map Prod.fst) := by
      simp [sortedGroupsOf, List.map_map, Function.comp_def]
    rw [hmap]
    have hsorted := List.sorted_insertionSort keyLe
      ((groupsOf (eventsOf host metas)).map Prod.fst)
    have hnodup : (List.insertionSort keyLe
        ((groupsOf (eventsOf host metas)).map Prod.fst)).Nodup :=
      ((List.perm_insertionSort keyLe _).nodup_iff).mpr (groupsOf_keys_nodup _ hidx)
    have hsorted2 : List.Pairwise keyLe
        (List.insertionSort keyLe ((groupsOf (eventsOf host metas)).map Prod.fst)) := hsorted
    have hnodup2 : List.Pairwise (fun a b => a ≠ b)
        (List.insertionSort keyLe ((groupsOf (eventsOf host metas)).map Prod.fst)) := hnodup
    refine (hnodup2.and hsorted2).imp ?_
    rintro a b ⟨hab, hle⟩
    rcases hle with hle | rfl
    · by_cases ha : a = "日付不明"
      · rw [keyCmp, if_pos ha] at hle
        omega
      · refine ⟨ha, ?_⟩
        by_cases hb : b = "日付不明"
        · exact Or.inl hb
        · rw [keyCmp, if_neg ha, if_neg hb] at hle
          right
          omega
    · exact absurd rfl hab
  · rw [List.forall_iff_forall_mem]
    intro p hp
    simp only [sortedGroupsOf, List.mem_map] at hp
    obtain ⟨k, hk, rfl⟩ := hp
    have hsorted := List.sorted_insertionSort evLe
      (((groupsOf (eventsOf host metas)).lookup k).getD [])
    have hl0 : (((groupsOf (eventsOf host metas)).lookup k).getD []).Pairwise
        (fun x y => x.uploadIndex < y.uploadIndex) := by
      cases hlk : (groupsOf (eventsOf host metas)).lookup k with
      | none => simp
      | some l =>
        simpa using groupsOf_lists_pairwise _ hidx (k, l) (lookup_mem hlk)
    have hnd : ((List.insertionSort evLe
        (((groupsOf (eventsOf host metas)).lookup k).getD [])).map
          ItinEvent.uploadIndex).Nodup := by
      refine ((List.Perm.map ItinEvent.uploadIndex
        (List.perm_insertionSort evLe _)).nodup_iff).mpr ?_
      have hne : (((groupsOf (eventsOf host metas)).lookup k).getD []).Pairwise
          (fun a b => a.uploadIndex ≠ b.uploadIndex) := hl0.imp ne_of_lt
      exact List.pairwise_map.mpr hne
    have hneidx : (List.insertionSort evLe
        (((groupsOf (eventsOf host metas)).lookup k).getD [])).Pairwise
          (fun x y => x.uploadIndex ≠ y.uploadIndex) := List.pairwise_map.mp hnd
    have hsorted2 : (List.insertionSort evLe
        (((groupsOf (eventsOf host metas)).lookup k).getD [])).Pairwise evLe := hsorted
    refine (hneidx.and hsorted2).imp ?_
    rintro x y ⟨hxy, hle⟩
    rcases hle with hlt | ⟨heq, hidxle⟩
    · exact Or.inl hlt
    · exact Or.inr ⟨heq, lt_of_le_of_ne hidxle hxy⟩

/-! ## C4 amended: drop rule and placeholder substitution -/

/-- C4 amended: a record with neither a parseable date-time nor a
non-blank (after trimming) place name is excluded from the itinerary
entirely; a kept record receives the fixed placeholder exactly when its
raw place name is falsy (absent, null, or the empty string), while a
truthy place name — including a whitespace-only one — is kept
verbatim. -/
theorem c4_drop_and_placeholder (host : Host) (i : Nat) (mRaw : JsVal) :
    ((match getD (if truthy mRaw then mRaw else .obj []) "dateTime" with
        | JsVal.str s => host.parseDateVal (.str s)
        | _ => none) = none ∧
      (match getD (if truthy mRaw then mRaw else .obj []) "placeName" with
        | JsVal.str s => decide (jsTrim s ≠ "")
        | _ => false) = false →
      mkEvent host i mRaw = none) ∧
    (∀ ev : ItinEvent, mkEvent host i mRaw = some ev →
      (truthy (getD (if truthy mRaw then mRaw else .obj []) "placeName") = false →
        ev.placeName = .str "（場所不明）") ∧
      (truthy (getD (if truthy mRaw then mRaw else .obj []) "placeName") = true →
        ev.placeName = getD (if truthy mRaw then mRaw else .obj []) "placeName")) := by
  constructor
  · rintro ⟨h1, h2⟩
    simp only [mkEvent]
    rw [if_pos]
    constructor
    · rw [h1]; simp
    · rw [h2]; simp
  · intro ev hev
    simp only [mkEvent] at hev
    by_cases hcond : ¬ (match getD (if truthy mRaw then mRaw else JsVal.obj []) "dateTime" with
        | JsVal.str s => host.parseDateVal (JsVal.str s)
        | _ => none).isSome = true ∧
        ¬ (match getD (if truthy mRaw then mRaw else JsVal.obj []) "placeName" with
        | JsVal.str s => decide (jsTrim s ≠ "")
        | _ => false) = true
    · rw [if_pos hcond] at hev
      exact absurd hev (by simp)
    · rw [if_neg hcond] at hev
      rw [← Option.some.inj hev]
      constructor
      · intro hfalse
        simp [hfalse]
      · intro htrue
        simp [htrue]

/-- C4 amended witness: a record with an empty place name and no
date-time is dropped; a record with a parseable date-time and no place
name is kept with the placeholder. -/
theorem c4_drop_and_placeholder_witness :
    mkEvent isoHost 0 (.obj [("placeName", .str "")]) = none ∧
    mkEvent isoHost 0 (.obj [("dateTime", .str "2025-05-10")]) =
      some (ItinEvent.mk .undefined (.str "（場所不明）") (some "2025/05/10") "09:00"
        (some 1746835200000) 0) ∧
    (ItinEvent.mk .undefined (.str "（場所不明）") (some "2025/05/10") "09:00"
        (some 1746835200000) 0).placeName = .str "（場所不明）" := by
  refine ⟨?_, rfl, ?_⟩
  · exact (c4_drop_and_placeholder isoHost 0 (.obj [("placeName", .str "")])).1 ⟨rfl, rfl⟩
  · exact ((c4_drop_and_placeholder isoHost 0
      (.obj [("dateTime", .str "2025-05-10")])).2 _ rfl).1 rfl

/-! ## C2: the PDF admission gate -/

theorem countRunning_update_running {n : Nat} (f : Fin n → TaskPhase) (i : Fin n)
    (h : f i ≠ .running) :
    countRunning (Function.update f i .running) = countRunning f + 1 := by
  unfold countRunning
  have hset : Finset.univ.filter (fun j => Function.update f i TaskPhase.running j = .running) =
      insert i (Finset.univ.filter (fun j => f j = TaskPhase.running)) := by
    ext j
    by_cases hj : j = i
    · subst hj; simp [Function.update_apply]
    · simp [Function.update_apply, hj]
  rw [hset, Finset.card_insert_of_not_mem (by simp [h])]

theorem countRunning_update_done {n : Nat} (f : Fin n → TaskPhase) (i : Fin n)
    (h : f i = .running) :
    countRunning (Function.update f i .done) = countRunning f - 1 := by
  unfold countRunning
  have hset : Finset.univ.filter (fun j => Function.update f i TaskPhase.done j = .running) =
      (Finset.univ.filter (fun j => f j = TaskPhase.running)).erase i := by
    ext j
    by_cases hj : j = i
    · subst hj; simp [Function.update_apply]
    · simp [Function.update_apply, hj, Finset.mem_erase]
  rw [hset, Finset.card_erase_of_mem (by simp [h])]

theorem countRunning_pos {n : Nat} (f : Fin n → TaskPhase) (i : Fin n)
    (h : f i = .running) : 1 ≤ countRunning f := by
  rw [Nat.succ_le_iff]
  exact Finset.card_pos.mpr ⟨i, by simp [h]⟩

/-- The counter always equals the number of running tasks and never
exceeds the limit, on every reachable state. -/
theorem pdf_invariant {n : Nat} : ∀ s : PdfState n, PdfReachable s →
    s.pdfInFlight = countRunning s.phases ∧ s.pdfInFlight ≤ PDF_MAX_CONCURRENCY := by
  intro s h
  induction h with
  | refl =>
    constructor
    · simp [initState, countRunning]
    · simp [initState, PDF_MAX_CONCURRENCY]
  | tail hsteps hstep ih =>
    rename_i b c
    cases hstep with
    | poll i hw hfull => exact ih
    | acquire i hw hlt =>
      constructor
      · show b.pdfInFlight + 1 = countRunning (Function.update b.phases i .running)
        rw [countRunning_update_running b.phases i (by simp [hw]), ih.1]
      · show b.pdfInFlight + 1 ≤ PDF_MAX_CONCURRENCY
        have h2 := ih.2
        unfold PDF_MAX_CONCURRENCY at hlt h2 ⊢
        omega
    | release i ok hr =>
      constructor
      · show b.pdfInFlight - 1 = countRunning (Function.update b.phases i .done)
        rw [countRunning_update_done b.phases i hr, ih.1]
      · show b.pdfInFlight - 1 ≤ PDF_MAX_CONCURRENCY
        have h2 := ih.2
        unfold PDF_MAX_CONCURRENCY at h2 ⊢
        omega

/-- C2: on every reachable state of the admission gate, under the
cooperative scheduling model: the number of renders in flight never
exceeds the limit of two and equals the counter; a waiting task is only
ever delayed — a step leaves it waiting or admits it, never discards
it; when a slot is free an admission step for any waiting task is
enabled; a running task has its release step (for both the normal and
the exceptional exit) which frees exactly one slot and moves it to
done; the only step that takes a task out of running is its own
release; and a finished task never acts again, so its slot is released
exactly once. -/
theorem c2_render_admission (n : Nat) (s : PdfState n) (h : PdfReachable s) :
    s.pdfInFlight ≤ PDF_MAX_CONCURRENCY ∧
    s.pdfInFlight = countRunning s.phases ∧
    (∀ t : PdfState n, ∀ i : Fin n, PdfStep s t → s.phases i = .waiting →
      t.phases i = .waiting ∨ t.phases i = .running) ∧
    (∀ i : Fin n, s.phases i = .waiting → s.pdfInFlight < PDF_MAX_CONCURRENCY →
      PdfStep s (acquired s i) ∧ (acquired s i).phases i = .running) ∧
    (∀ i : Fin n, s.phases i = .running →
      PdfStep s (released s i) ∧ (released s i).phases i = .done ∧
      (released s i).pdfInFlight = s.pdfInFlight - 1) ∧
    (∀ t : PdfState n, ∀ i : Fin n, PdfStep s t → s.phases i = .running →
      t.phases i = .running ∨ t = released s i) ∧
    (∀ t : PdfState n, ∀ i : Fin n, PdfStep s t → s.phases i = .done →
      t.phases i = .done) := by
  have hinv := pdf_invariant s h
  refine ⟨hinv.2, hinv.1, ?_, ?_, ?_, ?_, ?_⟩
  · intro t i hstep hw
    cases hstep with
    | poll j hjw hfull => exact Or.inl hw
    | acquire j hjw hlt =>
      by_cases hij : i = j
      · subst hij
        exact Or.inr (by simp [acquired, Function.update_apply])
      · exact Or.inl (by simp [acquired, Function.update_apply, hij, hw])
    | release j _ok hjr =>
      have hij : i ≠ j := fun hij => by rw [hij, hjr] at hw; exact TaskPhase.noConfusion hw
      exact Or.inl (by simp [released, Function.update_apply, hij, hw])
  · intro i hw hlt
    exact ⟨PdfStep.acquire s i hw hlt, by simp [acquired, Function.update_apply]⟩
  · intro i hr
    exact ⟨PdfStep.release s i true hr, by simp [released, Function.update_apply], rfl⟩
  · intro t i hstep hr
    cases hstep with
    | poll j hjw hfull => exact Or.inl hr
    | acquire j hjw hlt =>
      have hij : i ≠ j := fun hij => by rw [hij, hjw] at hr; exact TaskPhase.noConfusion hr
      exact Or.inl (by simp [acquired, Function.update_apply, hij, hr])
    | release j _ok hjr =>
      by_cases hij : i = j
      · subst hij
        exact Or.inr rfl
      · exact Or.inl (by simp [released, Function.update_apply, hij, hr])
  · intro t i hstep hd
    cases hstep with
    | poll j hjw hfull => exact hd
    | acquire j hjw hlt =>
      have hij : i ≠ j := fun hij => by rw [hij, hjw] at hd; exact TaskPhase.noConfusion hd
      simp [acquired, Function.update_apply, hij, hd]
    | release j _ok hjr =>
      have hij : i ≠ j := fun hij => by rw [hij, hjr] at hd; exact TaskPhase.noConfusion hd
      simp [released, Function.update_apply, hij, hd]

/-- C2 witness: after two tasks of three are admitted (a reachable
state), the in-flight count is at the limit and the third task is still
waiting — delayed, not rejected. -/
theorem c2_render_admission_witness :
    (acquired (acquired (initState 3) 0) 1).pdfInFlight ≤ PDF_MAX_CONCURRENCY ∧
    (acquired (acquired (initState 3) 0) 1).phases 2 = .waiting := by
  constructor
  · exact (c2_render_admission 3 (acquired (acquired (initState 3) 0) 1)
      (Relation.ReflTransGen.tail (Relation.ReflTransGen.tail Relation.ReflTransGen.refl
        (PdfStep.acquire (initState 3) 0 rfl (by decide)))
        (PdfStep.acquire (acquired (initState 3) 0) 1 rfl (by decide)))).1
  · rfl

end SightLog
